import Mathlib

/-!
Shallow embedding of `quickstart.py` from the time-tracking-cal repository:
a batch script that loads an ATimeLogger CSV report and reconciles the
parsed activities against a Google Calendar, creating one event per
activity while detecting duplicates by summary and start time.

Modelling conventions:

* A Python timezone-aware `datetime` is a `Timestamp`: an absolute
  instant (e.g. seconds since epoch, as `Int`) together with a UTC
  offset.  Comparison (`==`, `<`) of aware datetimes in Python compares
  absolute instants, which `dtEq` / `dtLt` mirror.
* A `tzinfo` object is modelled by its offset function `Int → Int`
  (UTC offset as a function of the instant, accounting for DST).
  `datetime.astimezone(tz)` keeps the instant and switches the offset.
* `datetime.fromisoformat` is an external parser, passed as a parameter
  `parse : String → Option Timestamp` (`none` models the raised
  `ValueError`).
* Exceptions that abort the run are modelled by `Option` / `Except`.
* The network is modelled by its visible effects: the single
  `events.list` query issued by `main` is reified as a `ListQuery`
  record, and the write calls (`events.delete` / `events.insert`) as a
  list of `Op` values in the order they are executed.  The interactive
  `input(...) == 'y'` prompt is an injected decision `confirm`.
-/

namespace TimeTrackingCal

/-- A timezone-aware datetime: absolute instant plus UTC offset. -/
structure Timestamp where
  instant : Int
  offset : Int
deriving DecidableEq, Repr

/-- Python `==` on aware datetimes: instant equality (offset not compared). -/
def dtEq (a b : Timestamp) : Bool :=
  a.instant == b.instant

/-- Python `<` on aware datetimes: instant comparison. -/
def dtLt (a b : Timestamp) : Bool :=
  a.instant < b.instant

/-- Python `datetime.astimezone(z)`: the instant is unchanged, the offset
becomes the zone's offset at that instant. -/
def astimezone (z : Int → Int) (t : Timestamp) : Timestamp :=
  ⟨t.instant, z t.instant⟩

/-- A fixed-offset zone (Python `timezone(timedelta(...))`). -/
def fixedZone (o : Int) : Int → Int :=
  fun _ => o

/-- One parsed time-tracking interval (the dict built by `load_report`). -/
structure Activity where
  activityType : String
  fromT : Timestamp
  toT : Timestamp
deriving DecidableEq, Repr

/-- One row as produced by `csv.DictReader`: a field is `none` when the
row is shorter than the header (`DictReader` fills missing fields with
`None`, which is how the trailing summary rows show up). -/
structure Row where
  activityType : String
  fromField : Option String
  toField : Option String
deriving DecidableEq, Repr

/-- The `COLOR_MAP` dict of `quickstart.py` (activity type to color ID). -/
def COLOR_MAP : List (String × String) :=
  [("Research ABR", "10"),
   ("Research Other", "6"),
   ("Research Physicalization", "4"),
   ("Dissertation", "4"),
   ("Meeting", "11"),
   ("Teaching Prep", "3"),
   ("Teaching", "3"),
   ("Grading", "3"),
   ("Volunteer", "9")]

/-- The `load_report` loop of `quickstart.py` (lines 43-58): skip rows
whose `To` field is `None`, otherwise parse `To` and `From` with
`fromisoformat` and convert each to the target zone with `astimezone`.
A parse failure (or `fromisoformat(None)`) raises, modelled by `none`. -/
def load_report (parse : String → Option Timestamp) (z : Int → Int) :
    List Row → Option (List Activity)
  | [] => some []
  | row :: rest =>
    match row.toField with
    | none => load_report parse z rest
    | some toStr =>
      match row.fromField with
      | none => none
      | some fromStr =>
        match parse toStr, parse fromStr with
        | some toDt, some fromDt =>
          (load_report parse z rest).map
            (fun es => ⟨row.activityType, astimezone z fromDt, astimezone z toDt⟩ :: es)
        | _, _ => none

/-- Total conversion of a well-formed row to the Activity that
`load_report` builds from it (used to state the loader's contract). -/
def rowActivity (parse : String → Option Timestamp) (z : Int → Int) (r : Row) : Activity :=
  ⟨r.activityType,
   astimezone z ((parse (r.fromField.getD "")).getD ⟨0, 0⟩),
   astimezone z ((parse (r.toField.getD "")).getD ⟨0, 0⟩)⟩

/-- A data row `load_report` can process: `To` and `From` present and parseable. -/
def WellFormedRow (parse : String → Option Timestamp) (r : Row) : Prop :=
  ∃ ts fs, r.toField = some ts ∧ r.fromField = some fs ∧
    (parse ts).isSome ∧ (parse fs).isSome

/-- The body built by `add_calendar_evt` (lines 60-75): `colorId` is
`none` exactly when the `color_id` argument was `None`, in which case the
field is absent from the request body. -/
structure EventBody where
  summary : String
  startDT : Timestamp
  endDT : Timestamp
  colorId : Option String
deriving DecidableEq, Repr

/-- `add_calendar_evt` of `quickstart.py`: builds the insert body
(summary, start/end dateTime, optional colorId). -/
def add_calendar_evt (name : String) (from_dt to_dt : Timestamp)
    (color_id : Option String) : EventBody :=
  ⟨name, from_dt, to_dt, color_id⟩

/-- One event returned by the `events.list` query, with its start/end
`dateTime` fields already parsed (the index-building loop parses them
with `fromisoformat`). -/
structure RemoteEvent where
  id : String
  summary : String
  start : Timestamp
  endT : Timestamp
deriving DecidableEq, Repr

/-- The record stored in the `existing` dict for one event: id, start, end. -/
structure EvtRec where
  id : String
  start : Timestamp
  endT : Timestamp
deriving DecidableEq, Repr

/-- The `new_rec` dict built for one event (lines 139-142). -/
def toRec (e : RemoteEvent) : EvtRec :=
  ⟨e.id, e.start, e.endT⟩

/-- The duplicate-lookup index `existing`: a Python dict from summary to
the list of records, modelled as an association list. -/
def ExistingIndex : Type :=
  List (String × List EvtRec)

/-- Python dict assignment `existing[summary] = evt_list`: update the
entry in place if the key exists, otherwise add it. -/
def assocSet (m : ExistingIndex) (k : String) (v : List EvtRec) : ExistingIndex :=
  match m with
  | [] => [(k, v)]
  | (k', v') :: rest =>
    if k' == k then (k, v) :: rest else (k', v') :: assocSet rest k v

/-- Python dict lookup on the index. -/
def idxLookup (m : ExistingIndex) (k : String) : Option (List EvtRec) :=
  List.lookup k m

/-- The index-building loop of `main` (lines 136-146): for each event,
`evt_list = existing.get(summary, []); evt_list.append(new_rec);
existing[summary] = evt_list`. -/
def buildIndex (events : List RemoteEvent) : ExistingIndex :=
  events.foldl
    (fun ex evt =>
      assocSet ex evt.summary ((idxLookup ex evt.summary).getD [] ++ [toRec evt]))
    []

/-- The group of records the index holds for one summary, in arrival order. -/
def groupFor (events : List RemoteEvent) (s : String) : List EvtRec :=
  (events.filter (fun e => e.summary == s)).map toRec

/-- The duplicate check of the per-activity loop (lines 154-158):
`act_type in existing`, then `.index(start)` over the group's start
times, which finds the first record whose start equals the activity's
`From` (aware-datetime equality, i.e. instant equality).  Returns the
matched record, `none` when the activity is not a duplicate. -/
def matchedRec (existing : ExistingIndex) (a : Activity) : Option EvtRec :=
  match idxLookup existing a.activityType with
  | none => none
  | some recs => recs.find? (fun r => dtEq r.start a.fromT)

/-- A network write call made by the per-activity loop. -/
inductive Op where
  | deleteEvt (eventId : String)
  | insertEvt (body : EventBody)
deriving DecidableEq, Repr

/-- The insert body `main` passes to `add_calendar_evt` for an activity
(line 169): name, start, end, and `COLOR_MAP.get(act_type, None)`. -/
def mkBody (a : Activity) : EventBody :=
  add_calendar_evt a.activityType a.fromT a.toT (List.lookup a.activityType COLOR_MAP)

/-- One iteration of the per-activity loop (lines 148-170): if the type
is in the index and some record's start equals the activity's `From`,
prompt; on decline `continue` (no write), on confirm delete the matched
event and fall through to the insert; otherwise just insert. -/
def processActivity (existing : ExistingIndex) (confirm : Activity → Bool)
    (a : Activity) : List Op :=
  match idxLookup existing a.activityType with
  | none => [Op.insertEvt (mkBody a)]
  | some recs =>
    match recs.find? (fun r => dtEq r.start a.fromT) with
    | none => [Op.insertEvt (mkBody a)]
    | some r =>
      if confirm a then [Op.deleteEvt r.id, Op.insertEvt (mkBody a)]
      else []

/-- The whole per-activity loop: write calls in execution order. -/
def runOps (existing : ExistingIndex) (confirm : Activity → Bool) :
    List Activity → List Op
  | [] => []
  | a :: rest => processActivity existing confirm a ++ runOps existing confirm rest

/-- Python `min(activities, key=...)` (line 112): first element with
minimal key; raises `ValueError` (modelled `none`) on an empty list. -/
def pyMinBy (key : Activity → Timestamp) : List Activity → Option Activity
  | [] => none
  | x :: xs => some (xs.foldl (fun best a => if dtLt (key a) (key best) then a else best) x)

/-- Python `max(activities, key=...)` (line 113): first element with
maximal key; raises on an empty list. -/
def pyMaxBy (key : Activity → Timestamp) : List Activity → Option Activity
  | [] => none
  | x :: xs => some (xs.foldl (fun best a => if dtLt (key best) (key a) then a else best) x)

/-- The parameters of the single `events.list` call of `main` (lines 117-123). -/
structure ListQuery where
  timeMin : Timestamp
  timeMax : Timestamp
  singleEvents : Bool
  orderBy : String
deriving DecidableEq, Repr

/-- The post-load part of `main` (lines 112-170): compute the min `From`
and max `To` of the loaded activities (raising on an empty list, before
any query, write or index build), issue the one `events.list` query,
build the index, then run the per-activity loop. -/
def mainRun (activities : List Activity) (events : List RemoteEvent)
    (confirm : Activity → Bool) : Option (ListQuery × List Op) :=
  match pyMinBy (fun a => a.fromT) activities, pyMaxBy (fun a => a.toT) activities with
  | some bAct, some eAct =>
    some (⟨bAct.fromT, eAct.toT, true, "startTime"⟩,
          runOps (buildIndex events) confirm activities)
  | _, _ => none

/-- Execution of a sequence of write calls when each call can raise
(nothing in the loop catches such an exception): `failOn op = true`
means the API call raises.  Returns `ok` with the performed calls, or
`error` with the calls attempted up to and including the failing one. -/
def performOps (failOn : Op → Bool) : List Op → Except (List Op) (List Op)
  | [] => Except.ok []
  | op :: rest =>
    if failOn op then Except.error [op]
    else
      match performOps failOn rest with
      | Except.ok l => Except.ok (op :: l)
      | Except.error l => Except.error (op :: l)

/-- The per-activity loop with fallible writes: the first raised
exception propagates out of `main` (there is no try/except around the
write calls), aborting the run; the result carries the calls attempted
before the abort. -/
def runExc (existing : ExistingIndex) (confirm : Activity → Bool)
    (failOn : Op → Bool) : List Activity → Except (List Op) (List Op)
  | [] => Except.ok []
  | a :: rest =>
    match performOps failOn (processActivity existing confirm a) with
    | Except.error l => Except.error l
    | Except.ok l =>
      match runExc existing confirm failOn rest with
      | Except.ok l' => Except.ok (l ++ l')
      | Except.error l' => Except.error (l ++ l')

/-! Helper lemmas about the index and the Python fold/find primitives. -/

theorem lookup_assocSet (m : ExistingIndex) (k k' : String) (v : List EvtRec) :
    idxLookup (assocSet m k v) k' = if k' = k then some v else idxLookup m k' := by
  induction m with
  | nil =>
    simp only [assocSet, idxLookup, List.lookup]
    cases h : k' == k with
    | true => simp_all
    | false => simp_all
  | cons hd tl ih =>
    obtain ⟨k₀, v₀⟩ := hd
    simp only [assocSet]
    by_cases h₀ : k₀ = k
    · subst h₀
      simp only [beq_self_eq_true, if_pos]
      simp only [idxLookup, List.lookup]
      cases h : k' == k₀ with
      | true => simp_all
      | false => simp_all
    · simp only [beq_iff_eq, h₀, if_neg, not_false_iff]
      simp only [idxLookup, List.lookup] at ih ⊢
      cases h : k' == k₀ with
      | true =>
        have : k' = k₀ := by simp_all
        subst this
        simp [h₀]
      | false => simp_all

theorem groupFor_cons (e : RemoteEvent) (events : List RemoteEvent) (s : String) :
    groupFor (e :: events) s =
      if e.summary = s then toRec e :: groupFor events s else groupFor events s := by
  by_cases h : e.summary = s <;> simp [groupFor, List.filter_cons, h]

theorem buildIndex_go (events : List RemoteEvent) :
    ∀ (m : ExistingIndex) (s : String),
      idxLookup
        (events.foldl
          (fun ex evt =>
            assocSet ex evt.summary ((idxLookup ex evt.summary).getD [] ++ [toRec evt]))
          m) s =
        match idxLookup m s with
        | some g => some (g ++ groupFor events s)
        | none =>
          if groupFor events s = [] then none else some (groupFor events s) := by
  induction events with
  | nil =>
    intro m s
    cases h : idxLookup m s <;> simp [groupFor, h]
  | cons e rest ih =>
    intro m s
    rw [List.foldl_cons, ih, lookup_assocSet, groupFor_cons]
    by_cases hs : s = e.summary
    · subst hs
      cases hm : idxLookup m e.summary with
      | none => simp [hm]
      | some g => simp [hm, List.append_assoc]
    · have hs' : e.summary ≠ s := fun h => hs h.symm
      simp only [if_neg hs, if_neg hs']

theorem lookup_buildIndex (events : List RemoteEvent) (s : String) :
    idxLookup (buildIndex events) s =
      if groupFor events s = [] then none else some (groupFor events s) := by
  have h := buildIndex_go events [] s
  simpa [buildIndex, idxLookup, List.lookup] using h

theorem matchedRec_buildIndex (events : List RemoteEvent) (a : Activity) :
    matchedRec (buildIndex events) a =
      (groupFor events a.activityType).find? (fun r => dtEq r.start a.fromT) := by
  rw [matchedRec, lookup_buildIndex]
  by_cases h : groupFor events a.activityType = [] <;> simp [h]

theorem find?_eq_some_split {α : Type} (p : α → Bool) :
    ∀ (l : List α) (r : α), l.find? p = some r →
      ∃ l₁ l₂, l = l₁ ++ r :: l₂ ∧ p r = true ∧ ∀ x ∈ l₁, p x = false := by
  intro l
  induction l with
  | nil => intro r h; simp [List.find?] at h
  | cons a l ih =>
    intro r h
    cases hp : p a with
    | true =>
      rw [List.find?_cons_of_pos _ hp] at h
      obtain rfl : a = r := by injection h
      exact ⟨[], l, rfl, hp, by simp⟩
    | false =>
      rw [List.find?_cons_of_neg _ (by simp [hp])] at h
      obtain ⟨l₁, l₂, rfl, hr, hall⟩ := ih r h
      refine ⟨a :: l₁, l₂, rfl, hr, ?_⟩
      intro x hx
      rcases List.mem_cons.mp hx with rfl | hx
      · exact hp
      · exact hall x hx

theorem find?_isSome_iff {α : Type} (p : α → Bool) (l : List α) :
    (l.find? p).isSome = true ↔ ∃ x ∈ l, p x = true := by
  induction l with
  | nil => simp [List.find?]
  | cons a l ih =>
    cases hp : p a with
    | true =>
      rw [List.find?_cons_of_pos _ hp]
      constructor
      · intro _; exact ⟨a, List.mem_cons_self a l, hp⟩
      · intro _; rfl
    | false =>
      rw [List.find?_cons_of_neg _ (by simp [hp])]
      simp only [ih]
      constructor
      · rintro ⟨x, hx, hpx⟩; exact ⟨x, List.mem_cons_of_mem _ hx, hpx⟩
      · rintro ⟨x, hx, hpx⟩
        rcases List.mem_cons.mp hx with rfl | hx
        · rw [hp] at hpx; exact absurd hpx (by simp)
        · exact ⟨x, hx, hpx⟩

theorem mem_groupFor (events : List RemoteEvent) (s : String) (r : EvtRec) :
    r ∈ groupFor events s ↔ ∃ e ∈ events, e.summary = s ∧ toRec e = r := by
  simp only [groupFor, List.mem_map, List.mem_filter, beq_iff_eq]
  constructor
  · rintro ⟨e, ⟨he, hs⟩, rfl⟩; exact ⟨e, he, hs, rfl⟩
  · rintro ⟨e, he, hs, rfl⟩; exact ⟨e, ⟨he, hs⟩, rfl⟩

theorem foldMin_spec (key : Activity → Timestamp) :
    ∀ (xs : List Activity) (x : Activity),
      (xs.foldl (fun best a => if dtLt (key a) (key best) then a else best) x) ∈ x :: xs ∧
      ∀ a ∈ x :: xs,
        (key (xs.foldl (fun best a => if dtLt (key a) (key best) then a else best) x)).instant
          ≤ (key a).instant := by
  intro xs
  induction xs with
  | nil => intro x; simp
  | cons y ys ih =>
    intro x
    rw [List.foldl_cons]
    obtain ⟨hmem, hle⟩ := ih (if dtLt (key y) (key x) then y else x)
    constructor
    · rcases List.mem_cons.mp hmem with h | h
      · rw [h]
        by_cases hy : dtLt (key y) (key x) = true
        · simp [hy]
        · simp only [Bool.not_eq_true] at hy
          simp [hy]
      · exact List.mem_cons_of_mem _ (List.mem_cons_of_mem _ h)
    · intro a ha
      have hstep : (key (if dtLt (key y) (key x) then y else x)).instant ≤ (key x).instant ∧
          (key (if dtLt (key y) (key x) then y else x)).instant ≤ (key y).instant := by
        by_cases hy : dtLt (key y) (key x) = true
        · have hy' : (key y).instant < (key x).instant := by simpa [dtLt] using hy
          rw [if_pos hy]
          exact ⟨le_of_lt hy', le_refl _⟩
        · have hy' : ¬((key y).instant < (key x).instant) := by simpa [dtLt] using hy
          rw [if_neg hy]
          exact ⟨le_refl _, by omega⟩
      have hhead := hle _ (List.mem_cons_self _ _)
      rcases List.mem_cons.mp ha with rfl | ha
      · exact le_trans hhead hstep.1
      · rcases List.mem_cons.mp ha with rfl | ha
        · exact le_trans hhead hstep.2
        · exact hle _ (List.mem_cons_of_mem _ ha)

theorem foldMax_spec (key : Activity → Timestamp) :
    ∀ (xs : List Activity) (x : Activity),
      (xs.foldl (fun best a => if dtLt (key best) (key a) then a else best) x) ∈ x :: xs ∧
      ∀ a ∈ x :: xs,
        (key a).instant ≤
          (key (xs.foldl (fun best a => if dtLt (key best) (key a) then a else best) x)).instant := by
  intro xs
  induction xs with
  | nil => intro x; simp
  | cons y ys ih =>
    intro x
    rw [List.foldl_cons]
    obtain ⟨hmem, hle⟩ := ih (if dtLt (key x) (key y) then y else x)
    constructor
    · rcases List.mem_cons.mp hmem with h | h
      · rw [h]
        by_cases hy : dtLt (key x) (key y) = true
        · simp [hy]
        · simp only [Bool.not_eq_true] at hy
          simp [hy]
      · exact List.mem_cons_of_mem _ (List.mem_cons_of_mem _ h)
    · intro a ha
      have hstep : (key x).instant ≤ (key (if dtLt (key x) (key y) then y else x)).instant ∧
          (key y).instant ≤ (key (if dtLt (key x) (key y) then y else x)).instant := by
        by_cases hy : dtLt (key x) (key y) = true
        · have hy' : (key x).instant < (key y).instant := by simpa [dtLt] using hy
          rw [if_pos hy]
          exact ⟨le_of_lt hy', le_refl _⟩
        · have hy' : ¬((key x).instant < (key y).instant) := by simpa [dtLt] using hy
          rw [if_neg hy]
          exact ⟨le_refl _, by omega⟩
      have hhead := hle _ (List.mem_cons_self _ _)
      rcases List.mem_cons.mp ha with rfl | ha
      · exact le_trans hstep.1 hhead
      · rcases List.mem_cons.mp ha with rfl | ha
        · exact le_trans hstep.2 hhead
        · exact hle _ (List.mem_cons_of_mem _ ha)

theorem processActivity_eq (existing : ExistingIndex) (confirm : Activity → Bool)
    (a : Activity) :
    processActivity existing confirm a =
      match matchedRec existing a with
      | none => [Op.insertEvt (mkBody a)]
      | some r =>
        if confirm a then [Op.deleteEvt r.id, Op.insertEvt (mkBody a)] else [] := by
  unfold processActivity matchedRec
  cases idxLookup existing a.activityType with
  | none => rfl
  | some recs =>
    cases recs.find? (fun r => dtEq r.start a.fromT) with
    | none => rfl
    | some r => rfl

theorem matchedRec_isSome_iff (events : List RemoteEvent) (a : Activity) :
    (matchedRec (buildIndex events) a).isSome = true ↔
      ∃ e ∈ events, e.summary = a.activityType ∧ e.start.instant = a.fromT.instant := by
  rw [matchedRec_buildIndex, find?_isSome_iff]
  constructor
  · rintro ⟨r, hr, hp⟩
    obtain ⟨e, he, hsum, rfl⟩ := (mem_groupFor events a.activityType r).mp hr
    refine ⟨e, he, hsum, ?_⟩
    simpa [dtEq, toRec] using hp
  · rintro ⟨e, he, hsum, hst⟩
    refine ⟨toRec e, (mem_groupFor events a.activityType (toRec e)).mpr ⟨e, he, hsum, rfl⟩, ?_⟩
    simp [dtEq, toRec, hst]

theorem insert_mem_processActivity (existing : ExistingIndex) (confirm : Activity → Bool)
    (a : Activity) (b : EventBody)
    (h : Op.insertEvt b ∈ processActivity existing confirm a) : b = mkBody a := by
  rw [processActivity_eq] at h
  cases hm : matchedRec existing a with
  | none =>
    rw [hm] at h
    simpa using h
  | some r =>
    rw [hm] at h
    by_cases hc : confirm a = true
    · simp [hc] at h
      exact h
    · simp [hc] at h

/-! Concrete sample data used by the witnesses. -/

/-- A sample activity: a Meeting from instant 100 to instant 200. -/
def actA : Activity := ⟨"Meeting", ⟨100, 0⟩, ⟨200, 0⟩⟩

/-- A second sample activity of a different type. -/
def actB : Activity := ⟨"Grading", ⟨300, 0⟩, ⟨400, 0⟩⟩

/-- A remote Meeting event with the same start instant as `actA` but a
different stored offset and a different end. -/
def evtA : RemoteEvent := ⟨"e1", "Meeting", ⟨100, -18000⟩, ⟨150, 0⟩⟩

/-- A remote Meeting event matching `actA`'s start, with a different end. -/
def evtB : RemoteEvent := ⟨"e2", "Meeting", ⟨100, 0⟩, ⟨180, 0⟩⟩

/-- Another remote Meeting event matching `actA`'s start, arriving after `evtB`. -/
def evtC : RemoteEvent := ⟨"e9", "Meeting", ⟨100, 0⟩, ⟨190, 0⟩⟩

/-- A sample `fromisoformat`: parses two fixed strings. -/
def sampleParse : String → Option Timestamp :=
  fun s => if s = "f" then some ⟨100, 3600⟩ else if s = "t" then some ⟨200, 3600⟩ else none

/-- A well-formed data row for `sampleParse`. -/
def sampleRow : Row := ⟨"Meeting", some "f", some "t"⟩

/-- A trailing summary row: the `To` field is absent. -/
def sampleSummaryRow : Row := ⟨"Total", none, none⟩

/-! The claims. -/

/-- C1: reconciliation treats a loaded activity as a duplicate of an
indexed remote event iff some event's summary equals the activity's type
and its start instant equals the activity's `From` instant; when no such
event exists (type absent from the index, or no start match), the loop
emits exactly the one Create; and the duplicate decision never looks at
end timestamps (it is invariant under arbitrary changes to every
event's end). -/
theorem claim_c1_duplicate_decision (events : List RemoteEvent)
    (confirm : Activity → Bool) (a : Activity) :
    ((matchedRec (buildIndex events) a).isSome = true ↔
      ∃ e ∈ events, e.summary = a.activityType ∧ e.start.instant = a.fromT.instant)
    ∧ (matchedRec (buildIndex events) a = none →
        processActivity (buildIndex events) confirm a = [Op.insertEvt (mkBody a)])
    ∧ (∀ f : Timestamp → Timestamp,
        (matchedRec
          (buildIndex (events.map (fun e => ⟨e.id, e.summary, e.start, f e.endT⟩)))
          a).isSome = (matchedRec (buildIndex events) a).isSome) := by
  refine ⟨matchedRec_isSome_iff events a, ?_, ?_⟩
  · intro h
    rw [processActivity_eq, h]
  · intro f
    have hm := matchedRec_isSome_iff
      (events.map (fun e => ⟨e.id, e.summary, e.start, f e.endT⟩)) a
    have ho := matchedRec_isSome_iff events a
    have hiff : ((matchedRec
        (buildIndex (events.map (fun e => ⟨e.id, e.summary, e.start, f e.endT⟩)))
        a).isSome = true) ↔ ((matchedRec (buildIndex events) a).isSome = true) := by
      rw [hm, ho]
      constructor
      · rintro ⟨e', he', hsum, hst⟩
        obtain ⟨e, he, rfl⟩ := List.mem_map.mp he'
        exact ⟨e, he, hsum, hst⟩
      · rintro ⟨e, he, hsum, hst⟩
        exact ⟨⟨e.id, e.summary, e.start, f e.endT⟩,
          List.mem_map_of_mem _ he, hsum, hst⟩
    cases h₁ : (matchedRec
        (buildIndex (events.map (fun e => ⟨e.id, e.summary, e.start, f e.endT⟩)))
        a).isSome <;>
      cases h₂ : (matchedRec (buildIndex events) a).isSome <;> simp_all

theorem claim_c1_witness :
    (matchedRec (buildIndex [evtA]) actA).isSome = true ∧
    processActivity (buildIndex []) (fun _ => true) actA = [Op.insertEvt (mkBody actA)] :=
  ⟨(claim_c1_duplicate_decision [evtA] (fun _ => true) actA).1.mpr
      ⟨evtA, by decide, by decide, by decide⟩,
   (claim_c1_duplicate_decision [] (fun _ => true) actA).2.1 (by decide)⟩

/-- C2: for an activity that matches an indexed event on type and start,
declining the prompt performs no write for it, while confirming performs
exactly one delete of the matched event followed by one insert of the
activity. -/
theorem claim_c2_prompt_behaviour (existing : ExistingIndex) (confirm : Activity → Bool)
    (a : Activity) (r : EvtRec) (h : matchedRec existing a = some r) :
    (confirm a = false → processActivity existing confirm a = []) ∧
    (confirm a = true →
      processActivity existing confirm a = [Op.deleteEvt r.id, Op.insertEvt (mkBody a)]) := by
  rw [processActivity_eq, h]
  constructor <;> intro hc <;> simp [hc]

theorem claim_c2_witness :
    processActivity (buildIndex [evtB]) (fun _ => false) actA = [] ∧
    processActivity (buildIndex [evtB]) (fun _ => true) actA =
      [Op.deleteEvt "e2", Op.insertEvt (mkBody actA)] :=
  ⟨(claim_c2_prompt_behaviour (buildIndex [evtB]) (fun _ => false) actA (toRec evtB)
      (by decide)).1 rfl,
   (claim_c2_prompt_behaviour (buildIndex [evtB]) (fun _ => true) actA (toRec evtB)
      (by decide)).2 rfl⟩

/-- C3: loading a report of N well-formed data rows followed by one
trailing summary row whose `To` field is absent yields exactly the N
activities of the data rows, in file order (the summary row contributes
nothing). -/
theorem claim_c3_loader (parse : String → Option Timestamp) (z : Int → Int)
    (rows : List Row) (srow : Row)
    (hwf : ∀ r ∈ rows, WellFormedRow parse r) (hs : srow.toField = none) :
    load_report parse z (rows ++ [srow]) = some (rows.map (rowActivity parse z)) := by
  revert hwf
  induction rows with
  | nil =>
    intro _
    simp [load_report, hs]
  | cons r rows ih =>
    intro hwf
    obtain ⟨ts, fs, hto, hfrom, hpt, hpf⟩ := hwf r (List.mem_cons_self r rows)
    obtain ⟨tv, htv⟩ := Option.isSome_iff_exists.mp hpt
    obtain ⟨fv, hfv⟩ := Option.isSome_iff_exists.mp hpf
    have ihr := ih (fun x hx => hwf x (List.mem_cons_of_mem r hx))
    simp only [List.cons_append, load_report, hto, hfrom, htv, hfv, List.map_cons]
    rw [List.append_eq, ihr]
    simp only [Option.map_some']
    simp [rowActivity, hto, hfrom, htv, hfv]

theorem claim_c3_witness :
    load_report sampleParse (fixedZone (-21600)) [sampleRow, sampleSummaryRow] =
      some [rowActivity sampleParse (fixedZone (-21600)) sampleRow] :=
  claim_c3_loader sampleParse (fixedZone (-21600)) [sampleRow] sampleSummaryRow
    (by
      intro r hr
      have : r = sampleRow := by simpa using hr
      subst this
      exact ⟨"t", "f", rfl, rfl, by decide, by decide⟩)
    rfl

/-- C4: the loader's `astimezone` conversion preserves the absolute
instant: converting a timezone-aware timestamp to any target zone keeps
its instant, and converting back to the original fixed offset restores
the original timestamp exactly. -/
theorem claim_c4_tz_roundtrip (z : Int → Int) (t : Timestamp) :
    astimezone (fixedZone t.offset) (astimezone z t) = t ∧
    (astimezone z t).instant = t.instant := by
  cases t
  exact ⟨rfl, rfl⟩

/-- C5: every insert body emitted by the run carries exactly the
`COLOR_MAP` entry for its activity type: `some` of the table's colorId
when the type is a key (e.g. "11" for "Meeting"), and no colorId field
(`none`) when it is not. -/
theorem claim_c5_color (existing : ExistingIndex) (confirm : Activity → Bool)
    (activities : List Activity) (b : EventBody)
    (h : Op.insertEvt b ∈ runOps existing confirm activities) :
    (∀ c, List.lookup b.summary COLOR_MAP = some c → b.colorId = some c) ∧
    (List.lookup b.summary COLOR_MAP = none → b.colorId = none) ∧
    List.lookup "Meeting" COLOR_MAP = some "11" := by
  have key : b.colorId = List.lookup b.summary COLOR_MAP := by
    revert h
    induction activities with
    | nil => intro h; simp [runOps] at h
    | cons a rest ih =>
      intro h
      simp only [runOps, List.mem_append] at h
      rcases h with h | h
      · have hb := insert_mem_processActivity existing confirm a b h
        subst hb
        rfl
      · exact ih h
  exact ⟨fun c hc => by rw [key, hc], fun hc => by rw [key, hc], by decide⟩

theorem claim_c5_witness : (mkBody actA).colorId = some "11" := by
  have h := claim_c5_color (buildIndex []) (fun _ => true) [actA] (mkBody actA)
    (by simp [runOps, processActivity_eq, matchedRec, idxLookup, List.lookup, buildIndex])
  exact h.1 "11" (by decide)

/-- C6: for a non-empty activity list the run issues its one list query
with lower bound the minimum `From` over the loaded activities (attained
by one of them and below all of them), upper bound the maximum `To`,
`singleEvents` set, and results ordered by start time. -/
theorem claim_c6_query (activities : List Activity) (events : List RemoteEvent)
    (confirm : Activity → Bool) (hne : activities ≠ []) :
    ∃ q ops, mainRun activities events confirm = some (q, ops) ∧
      q.singleEvents = true ∧ q.orderBy = "startTime" ∧
      (∃ a ∈ activities, q.timeMin = a.fromT) ∧
      (∀ a ∈ activities, q.timeMin.instant ≤ a.fromT.instant) ∧
      (∃ a ∈ activities, q.timeMax = a.toT) ∧
      (∀ a ∈ activities, a.toT.instant ≤ q.timeMax.instant) := by
  cases activities with
  | nil => exact absurd rfl hne
  | cons x xs =>
    obtain ⟨hmem, hle⟩ := foldMin_spec (fun a => a.fromT) xs x
    obtain ⟨hmem', hle'⟩ := foldMax_spec (fun a => a.toT) xs x
    refine ⟨_, _, rfl, rfl, rfl, ⟨_, hmem, rfl⟩, ?_, ⟨_, hmem', rfl⟩, ?_⟩
    · intro a ha
      exact hle a ha
    · intro a ha
      exact hle' a ha

theorem claim_c6_witness : (mainRun [actA, actB] [] (fun _ => true)).isSome = true := by
  obtain ⟨q, ops, hq, -⟩ :=
    claim_c6_query [actA, actB] [] (fun _ => true) (by simp)
  rw [hq]
  rfl

/-- C7 counterexample: with every write raising (nothing in the loop
catches write errors), a run over two fresh activities aborts at the
first activity's insert; the second activity's insert is never
attempted, so processing of subsequent activities does not continue. -/
theorem claim_c7_counterexample :
    runExc (buildIndex []) (fun _ => true) (fun _ => true) [actA, actB] =
      Except.error [Op.insertEvt (mkBody actA)] ∧
    Op.insertEvt (mkBody actB) ∉ [Op.insertEvt (mkBody actA)] := by
  constructor
  · rfl
  · decide

/-- C7 (amended): a failing remote write raises an uncaught exception
that aborts the run at that point: the subsequent activities are not
processed (the outcome is independent of them), while writes already
performed earlier in the run are kept (no rollback). -/
theorem claim_c7_abort_on_write_error (existing : ExistingIndex)
    (confirm : Activity → Bool) (failOn : Op → Bool) (a b : Activity)
    (rest : List Activity) (l : List Op)
    (h : performOps failOn (processActivity existing confirm a) = Except.error l) :
    runExc existing confirm failOn (a :: rest) = Except.error l ∧
    ∀ l₁, performOps failOn (processActivity existing confirm b) = Except.ok l₁ →
      runExc existing confirm failOn (b :: a :: rest) = Except.error (l₁ ++ l) := by
  have habort : runExc existing confirm failOn (a :: rest) = Except.error l := by
    simp only [runExc, h]
  refine ⟨habort, ?_⟩
  intro l₁ h₁
  have hun : runExc existing confirm failOn (b :: a :: rest) =
      match performOps failOn (processActivity existing confirm b) with
      | Except.error l' => Except.error l'
      | Except.ok l' =>
        match runExc existing confirm failOn (a :: rest) with
        | Except.ok l'' => Except.ok (l' ++ l'')
        | Except.error l'' => Except.error (l' ++ l'') := rfl
  rw [hun, h₁, habort]

/-- A failure oracle that makes exactly the insert for `actA` raise. -/
def failOnA : Op → Bool :=
  fun op => decide (op = Op.insertEvt (mkBody actA))

theorem claim_c7_abort_witness :
    runExc (buildIndex []) (fun _ => true) failOnA [actA] =
      Except.error [Op.insertEvt (mkBody actA)] ∧
    runExc (buildIndex []) (fun _ => true) failOnA [actB, actA] =
      Except.error ([Op.insertEvt (mkBody actB)] ++ [Op.insertEvt (mkBody actA)]) := by
  obtain ⟨h1, h2⟩ := claim_c7_abort_on_write_error (buildIndex []) (fun _ => true)
    failOnA actA actB [] [Op.insertEvt (mkBody actA)] (by rfl)
  exact ⟨h1, h2 [Op.insertEvt (mkBody actB)] (by rfl)⟩

/-- C8: on an empty activity list, `main` fails at the `min`/`max`
computation (Python raises `ValueError` on an empty sequence), before
the list query, the index build or any write: the run produces no query
and no operations. -/
theorem claim_c8_empty_report (events : List RemoteEvent) (confirm : Activity → Bool)
    (key : Activity → Timestamp) :
    mainRun [] events confirm = none ∧
    pyMinBy key [] = none ∧ pyMaxBy key [] = none :=
  ⟨rfl, rfl, rfl⟩

/-- C9: when several indexed events of the activity's type share its
start, the matched event is the first one in the group's arrival order
(every earlier record fails the start test), and on confirmation the
loop performs exactly one delete, of that first match, plus the insert:
no other event is touched. -/
theorem claim_c9_first_match (existing : ExistingIndex) (confirm : Activity → Bool)
    (a : Activity) (recs : List EvtRec) (r : EvtRec)
    (hlook : idxLookup existing a.activityType = some recs)
    (hfind : recs.find? (fun x => dtEq x.start a.fromT) = some r) :
    (∃ pre post, recs = pre ++ r :: post ∧ dtEq r.start a.fromT = true ∧
      ∀ x ∈ pre, dtEq x.start a.fromT = false) ∧
    (confirm a = true →
      processActivity existing confirm a = [Op.deleteEvt r.id, Op.insertEvt (mkBody a)]) := by
  constructor
  · exact find?_eq_some_split _ recs r hfind
  · intro hc
    have hm : matchedRec existing a = some r := by
      rw [matchedRec, hlook]
      exact hfind
    rw [processActivity_eq, hm]
    simp [hc]

theorem claim_c9_witness :
    processActivity (buildIndex [evtB, evtC]) (fun _ => true) actA =
      [Op.deleteEvt "e2", Op.insertEvt (mkBody actA)] := by
  have h := claim_c9_first_match (buildIndex [evtB, evtC]) (fun _ => true) actA
    [toRec evtB, toRec evtC] (toRec evtB) (by decide) (by decide)
  exact h.2 rfl

theorem matchedRec_congr (existing : ExistingIndex) (a a' : Activity)
    (hty : a'.activityType = a.activityType)
    (hfrom : a'.fromT.instant = a.fromT.instant) :
    matchedRec existing a' = matchedRec existing a := by
  have hp : (fun r : EvtRec => dtEq r.start a'.fromT) =
      (fun r : EvtRec => dtEq r.start a.fromT) := by
    funext r
    simp [dtEq, hfrom]
  rw [matchedRec, matchedRec, hty, hp]

/-- A second Meeting activity with the same `From` as `actA` but a
different `To`. -/
def actA2 : Activity := ⟨"Meeting", ⟨100, 0⟩, ⟨250, 0⟩⟩

/-- C10: the index is built once and never updated by the loop: for any
two activities in one run that agree on type and `From` instant (their
ends may differ), if neither matches a remote event both produce a
Create (the second is not treated as a duplicate of the first's
creation), and if they match an indexed event, a confirmed deletion
leaves the event's record in the index, so the later activity matches
the same event again (its id is deleted a second time). -/
theorem claim_c10_static_index (events : List RemoteEvent) (confirm : Activity → Bool)
    (a a' : Activity) (hty : a'.activityType = a.activityType)
    (hfrom : a'.fromT.instant = a.fromT.instant) :
    (matchedRec (buildIndex events) a = none →
      runOps (buildIndex events) confirm [a, a'] =
        [Op.insertEvt (mkBody a), Op.insertEvt (mkBody a')]) ∧
    (∀ r, matchedRec (buildIndex events) a = some r →
      confirm a = true → confirm a' = true →
      runOps (buildIndex events) confirm [a, a'] =
        [Op.deleteEvt r.id, Op.insertEvt (mkBody a),
         Op.deleteEvt r.id, Op.insertEvt (mkBody a')]) := by
  have hcong := matchedRec_congr (buildIndex events) a a' hty hfrom
  constructor
  · intro h
    simp [runOps, processActivity_eq, h, hcong.trans h]
  · intro r h hca hca'
    simp [runOps, processActivity_eq, h, hcong.trans h, hca, hca']

theorem claim_c10_witness :
    runOps (buildIndex []) (fun _ => true) [actA, actA2] =
      [Op.insertEvt (mkBody actA), Op.insertEvt (mkBody actA2)] ∧
    runOps (buildIndex [evtB]) (fun _ => true) [actA, actA2] =
      [Op.deleteEvt "e2", Op.insertEvt (mkBody actA),
       Op.deleteEvt "e2", Op.insertEvt (mkBody actA2)] :=
  ⟨(claim_c10_static_index [] (fun _ => true) actA actA2 rfl rfl).1 (by decide),
   (claim_c10_static_index [evtB] (fun _ => true) actA actA2 rfl rfl).2 (toRec evtB)
     (by decide) rfl rfl⟩

end TimeTrackingCal
